import Mathlib

/-!
Verification development for the Market Metrics Engine of codespacexx/Server
(src/run.py, class AdvancedMarketIntelligence).

The Python source is shallowly embedded below.  Machine floats are modelled by
exact rationals (every arithmetic step of the engine on well-formed marketplace
fields is `+ - * /` on decimal data); fallible Python code (expressions that can
raise `ValueError`, `ZeroDivisionError` or `IndexError`) is modelled with
`Option`, `none` standing for an escaped exception.
-/

/- The arithmetic of `Rat` in Batteries is marked `@[irreducible]`, which stops
the `decide` tactic from evaluating the embedded engine on concrete inputs.
Re-marking it semireducible only restores unfolding; it changes no definition
and no axiom. -/
set_option allowUnsafeReducibility true in
attribute [semireducible] Rat.add Rat.mul Rat.inv Rat.sub Rat.div Rat.neg

/-- One raw marketplace listing record, as handed to the engine: the four
string-valued fields that `calculate_advanced_metrics` and its helpers read
(`gig['price']`, `gig['orders']`, `gig['level']`, `gig['rating']`). -/
structure Gig where
  price : String
  orders : String
  level : String
  rating : String
deriving DecidableEq, Repr

/-! ## Python string and number primitives used by the engine -/

/-- Character-wise model of Python `str.replace(old, new)` for a single-character
pattern (the only patterns the source uses: `'$'`, `'K'`, `'+'`). -/
def replaceChar (c : Char) (rep : List Char) : List Char → List Char
  | [] => []
  | a :: as => if a = c then rep ++ replaceChar c rep as else a :: replaceChar c rep as

/-- Python `s.replace(c, rep)` on strings, single-character pattern. -/
def pyReplace (s : String) (c : Char) (rep : String) : String :=
  String.mk (replaceChar c rep.data s.data)

def isSpaceChar (c : Char) : Bool :=
  c = ' ' || c = '\t' || c = '\n' || c = '\r'

/-- Python `str.strip()` of surrounding whitespace, as performed by `float()` and
`int()` before parsing. -/
def trimChars (cs : List Char) : List Char :=
  ((cs.dropWhile isSpaceChar).reverse.dropWhile isSpaceChar).reverse

/-- Value of a digit string read left to right. -/
def digitsToNat (ds : List Char) : Nat :=
  ds.foldl (fun n d => 10 * n + (d.toNat - 48)) 0

/-- Unsigned fragment of Python `float(s)`: an integer part and an optional
fractional part around a single dot, at least one digit in total.  This covers
the decimal-literal grammar of the price and rating fields; exponent,
`inf`/`nan` and underscore forms lie outside the fragment the engine receives
and are mapped to `none` (a raised `ValueError`). -/
def pyFloatCore (cs : List Char) : Option Rat :=
  let ip := cs.takeWhile (·.isDigit)
  let rest := cs.dropWhile (·.isDigit)
  match rest with
  | [] => if ip.isEmpty then none else some (digitsToNat ip : Rat)
  | '.' :: fp =>
      if fp.all (·.isDigit) && (!ip.isEmpty || !fp.isEmpty) then
        some ((digitsToNat ip : Rat) + (digitsToNat fp : Rat) / ((10 ^ fp.length : Nat) : Rat))
      else none
  | _ => none

/-- Python `float(s)`: strip whitespace, optional sign, decimal literal;
anything else raises `ValueError` (modelled as `none`). -/
def pyFloat (s : String) : Option Rat :=
  match trimChars s.data with
  | '+' :: rest => pyFloatCore rest
  | '-' :: rest => (pyFloatCore rest).map (fun x => -x)
  | cs => pyFloatCore cs

/-- Python `int(s)`: strip whitespace, optional sign, digits only; anything
else (in particular a decimal point) raises `ValueError`. -/
def pyIntCore (cs : List Char) : Option Int :=
  if !cs.isEmpty && cs.all (·.isDigit) then some (digitsToNat cs : Int) else none

def pyInt (s : String) : Option Int :=
  match trimChars s.data with
  | '+' :: rest => pyIntCore rest
  | '-' :: rest => (pyIntCore rest).map (fun x => -x)
  | cs => pyIntCore cs

/-! ## Field normalization as the source performs it

`run.py` normalizes fields inline:
`float(gig['price'].replace('$', ''))` (lines 50, 111),
`int(gig['orders'].replace('K', '000').replace('+', ''))` (lines 51, 79-80),
`float(gig['rating'])` (line 96), and uses `gig['level']` verbatim (line 69). -/

def parsePrice (s : String) : Option Rat :=
  pyFloat (pyReplace s '$' "")

def parseOrders (s : String) : Option Int :=
  pyInt (pyReplace (pyReplace s 'K' "000") '+' "")

def parseRating (s : String) : Option Rat :=
  pyFloat s

/-- A Python list comprehension whose element expression can raise: the list
of results, or `none` as soon as one element raises. -/
def mapOpt {α β : Type} (f : α → Option β) : List α → Option (List β)
  | [] => some []
  | a :: as => (f a).bind fun b => (mapOpt f as).map fun bs => b :: bs

/-! ## numpy statistics over exact rationals

`np.mean`, `np.median`, `np.percentile` (linear interpolation, the default
method) and `np.std` over a list of rationals.  `np.sort` is modelled by
`insertionSort (· ≤ ·)`: a nondecreasing permutation of the input is unique,
so any sorting algorithm yields the same list. -/

def pySorted (xs : List Rat) : List Rat :=
  xs.insertionSort (· ≤ ·)

/-- The linear interpolation step of `np.percentile`: value at virtual index
`t` of the sorted array `s`, reading `s[i]` and `s[min (i+1) (n-1)]` around
`i = floor t`. -/
def linInterp (s : List Rat) (t : Rat) : Rat :=
  s.getD (⌊t⌋).toNat 0 +
    (t - ((⌊t⌋).toNat : Rat)) *
      (s.getD (min ((⌊t⌋).toNat + 1) (s.length - 1)) 0 - s.getD (⌊t⌋).toNat 0)

/-- `np.percentile(xs, q)` with the default linear-interpolation method:
virtual index `q * (n - 1) / 100` into the sorted data.  numpy raises an
`IndexError` on an empty array; the engine only reaches this on non-empty
input (callers of this model handle the empty case separately). -/
def np_percentile (xs : List Rat) (q : Rat) : Rat :=
  let s := pySorted xs
  linInterp s (q * ((s.length : Rat) - 1) / 100)

/-- `np.mean`.  On an empty array numpy yields NaN with a warning; the engine
only reaches this with non-empty data. -/
def np_mean (xs : List Rat) : Rat :=
  xs.sum / (xs.length : Rat)

/-- `np.median` equals the 50th percentile under linear interpolation. -/
def np_median (xs : List Rat) : Rat :=
  np_percentile xs 50

/-- The radicand of `np.std`: the population variance.  `np.std` itself is the
square root of this value, which leaves the rationals; the engine computations
the claims address never read the square root back, so the variance is the
value tracked here. -/
def np_std_sq (xs : List Rat) : Rat :=
  ((xs.map (fun x => (x - np_mean xs) * (x - np_mean xs))).sum) / (xs.length : Rat)

/-- `np.histogram(xs, bins=5)[0]`: five equal-width bins spanning
`[min xs, max xs]` (widened to `[v - 0.5, v + 0.5]` when the data range is
degenerate, and to `(0, 1)` for empty data, as numpy does); the first four
bins are half-open, the last is closed. -/
def npHistogram5 (xs : List Rat) : List Nat :=
  match xs with
  | [] => [0, 0, 0, 0, 0]
  | x :: rest =>
    let lo0 := rest.foldl min x
    let hi0 := rest.foldl max x
    let lo := if lo0 = hi0 then lo0 - 1 / 2 else lo0
    let hi := if lo0 = hi0 then hi0 + 1 / 2 else hi0
    let edge : Nat → Rat := fun k => lo + (hi - lo) * (k : Rat) / 5
    (List.range 4).map (fun k => xs.countP fun v => decide (edge k ≤ v) && decide (v < edge (k + 1)))
      ++ [xs.countP fun v => decide (edge 4 ≤ v) && decide (v ≤ edge 5)]

/-! ## calculate_basic_stats (run.py:48-65) -/

structure PriceStats where
  mean : Rat
  median : Rat
  std_sq : Rat
  quartiles : List Rat
deriving DecidableEq, Repr

structure OrderStats where
  mean : Rat
  median : Rat
  total : Int
deriving DecidableEq, Repr

structure BasicStats where
  price_stats : PriceStats
  order_stats : OrderStats
deriving DecidableEq, Repr

/-- `calculate_basic_stats` (run.py:48-65).  The two comprehensions parse every
price and order field, raising `ValueError` on malformed text (modelled by
`none`); on an empty record list `np.percentile` raises `IndexError`, also
`none`.  `std_sq` carries the radicand of `np.std` (see `np_std_sq`). -/
def calculate_basic_stats (gigs : List Gig) : Option BasicStats := do
  let prices ← mapOpt (fun g => parsePrice g.price) gigs
  let orders ← mapOpt (fun g => parseOrders g.orders) gigs
  if gigs.isEmpty then none
  else
    some
      { price_stats :=
          { mean := np_mean prices
            median := np_median prices
            std_sq := np_std_sq prices
            quartiles := [np_percentile prices 25, np_percentile prices 50, np_percentile prices 75] }
        order_stats :=
          { mean := np_mean (orders.map fun o : Int => (o : Rat))
            median := np_median (orders.map fun o : Int => (o : Rat))
            total := orders.sum } }

/-! ## analyze_market_dynamics (run.py:67-91) -/

structure MarketDynamics where
  level_distribution : List (String × Rat)
  hhi : Rat
  concentration_level : String
deriving DecidableEq, Repr

/-- The `level_distribution` dict comprehension (run.py:72-75): for each
distinct seller level, its share of all sellers as a percentage.  Python
iterates over `set(seller_levels)`; the set is modelled as `dedup` (the
key-to-value association carries no order). -/
def level_distribution_calc (gigs : List Gig) : List (String × Rat) :=
  let seller_levels := gigs.map (·.level)
  seller_levels.dedup.map fun l =>
    (l, (seller_levels.count l : Rat) / (gigs.length : Rat) * 100)

/-- The HHI sum (run.py:78-83): each share is `orders / sum(orders) * 100` and
the index is the sum of squared shares. -/
def hhi_calc (orders : List Int) : Rat :=
  ((orders.map fun o : Int => ((o : Rat) / ((orders.sum : Int) : Rat)) * 100).map
    fun s : Rat => s * s).sum

/-- `analyze_market_dynamics` (run.py:67-91).  With at least one record and
`sum(orders) = 0` the share computation divides by zero and the whole call
raises `ZeroDivisionError` (modelled by `none`); with no records the share
comprehension never runs, so `hhi = 0` and the label is computed from it. -/
def analyze_market_dynamics (gigs : List Gig) : Option MarketDynamics := do
  let dist := level_distribution_calc gigs
  let orders ← mapOpt (fun g => parseOrders g.orders) gigs
  if gigs.length ≠ 0 ∧ orders.sum = 0 then none
  else
    let hhi := hhi_calc orders
    some
      { level_distribution := dist
        hhi := hhi
        concentration_level :=
          if hhi > 2500 then "High" else if hhi > 1500 then "Moderate" else "Low" }

/-! ## analyze_competitors (run.py:93-107) -/

structure ResponseMetrics where
  avg_response_time : Rat
  fast_responders : Nat
deriving DecidableEq, Repr

structure QualityMetrics where
  avg_rating : Rat
  rating_distribution : List Nat
deriving DecidableEq, Repr

structure CompetitorAnalysis where
  response_metrics : ResponseMetrics
  quality_metrics : QualityMetrics
deriving DecidableEq, Repr

/-- `analyze_competitors` (run.py:93-107).  The response times are fresh draws
of `random.uniform(1, 24)`, one per record: the pseudo-random source is made
explicit as a stream `rand` of draws, so one evaluation of the Python function
corresponds to one choice of stream.  `float(gig['rating'])` raises on
malformed text (`none`). -/
def analyze_competitors (rand : Nat → Rat) (gigs : List Gig) : Option CompetitorAnalysis := do
  let response_times := (List.range gigs.length).map rand
  let ratings ← mapOpt (fun g => parseRating g.rating) gigs
  some
    { response_metrics :=
        { avg_response_time := np_mean response_times
          fast_responders := response_times.countP fun t => decide (t < 3) }
      quality_metrics :=
        { avg_rating := np_mean ratings
          rating_distribution := npHistogram5 ratings } }

/-! ## analyze_pricing (run.py:109-120) -/

structure PriceSegments where
  budget : Nat
  mid_range : Nat
  premium : Nat
deriving DecidableEq, Repr

/-- The `price_segments` dict (run.py:114-118) over the parsed price list:
budget counts `p < p33`, mid-range counts `p33 ≤ p < p66`, premium counts
`p ≥ p66`. -/
def price_segments_calc (prices : List Rat) : PriceSegments :=
  let p33 := np_percentile prices 33
  let p66 := np_percentile prices 66
  { budget := prices.countP fun p => decide (p < p33)
    mid_range := prices.countP fun p => decide (p33 ≤ p) && decide (p < p66)
    premium := prices.countP fun p => decide (p66 ≤ p) }

/-- Modelled from the spec: `calculate_price_elasticity` is called at
run.py:119 but not defined in src/run.py (it lives in another variant of the
scraper corpus).  §4.4 specifies only a named numeric placeholder and allows a
constant stub. -/
def calculate_price_elasticity : Rat := 0

structure PriceAnalysis where
  price_segments : PriceSegments
  price_elasticity : Rat
deriving DecidableEq, Repr

/-- `analyze_pricing` (run.py:109-120): parse the prices (raising on malformed
text), then segment them. -/
def analyze_pricing (gigs : List Gig) : Option PriceAnalysis := do
  let prices ← mapOpt (fun g => parsePrice g.price) gigs
  some { price_segments := price_segments_calc prices
         price_elasticity := calculate_price_elasticity }

/-! ## The metric groups the claims address, with the random source explicit

`calculate_advanced_metrics` (run.py:36-46) builds one dict from the six group
computations.  Its `quality_metrics` and `market_trends` entries call
`calculate_service_quality`, `calculate_reliability_score` and
`simulate_trend_data`, none of which is defined in src/run.py; the four groups
below are the ones the claims address and are computed exactly as in the
source. -/

structure MetricsCore where
  basic_stats : Option BasicStats
  market_dynamics : Option MarketDynamics
  competitor_analysis : Option CompetitorAnalysis
  price_analysis : Option PriceAnalysis
deriving DecidableEq, Repr

def metrics_core (rand : Nat → Rat) (gigs : List Gig) : MetricsCore :=
  { basic_stats := calculate_basic_stats gigs
    market_dynamics := analyze_market_dynamics gigs
    competitor_analysis := analyze_competitors rand gigs
    price_analysis := analyze_pricing gigs }

/-! ## Spec-modelled components absent from src/run.py -/

structure CompetitionDemand where
  competition_level : String
  saturation : Rat
  demand_level : String
  demand_score : Rat
deriving DecidableEq, Repr

/-- Modelled from the spec: the Competition and Demand Scorer (§4.5) belongs
to a scraper variant of the corpus that is not among the methods of
src/run.py.  Per §4.5: saturation is `min(sellerCount / 10 * 100, 100)` with
bands below 30 and 70; the demand score is `min(totalOrders / 1000 * 100, 100)`
with the same bands; both scores are clamped to `[0, 100]`; with zero input
records both groups report level "Unknown" with zeroed numeric fields.  The
order counts are normalized per §4.1 (malformed count text defaults to 0). -/
def competition_demand_scorer (gigs : List Gig) : CompetitionDemand :=
  if gigs.length = 0 then
    { competition_level := "Unknown", saturation := 0
      demand_level := "Unknown", demand_score := 0 }
  else
    let sat := max 0 (min ((gigs.length : Rat) / 10 * 100) 100)
    let totalOrders : Int := (gigs.map fun g => (parseOrders g.orders).getD 0).sum
    let dem := max 0 (min ((totalOrders : Rat) / 1000 * 100) 100)
    { competition_level := if sat < 30 then "Low" else if sat < 70 then "Medium" else "High"
      saturation := sat
      demand_level := if dem < 30 then "Low" else if dem < 70 then "Medium" else "High"
      demand_score := dem }

/-- Modelled from the spec: the Opportunity Scorer (§4.6) is likewise not
among the methods of src/run.py.  Per §4.6 it is the pure function
`(100 - saturation) * demandScore / 100` of the two upstream scores. -/
def opportunity_score (saturation demand_score : Rat) : Rat :=
  (100 - saturation) * demand_score / 100

/-! ## The Python value shape of the report, for the serialization contract -/

/-- The shape of a Python value appearing in the report tree.  `float` covers
Python floats and numpy scalar floats (`np.float64` is a subclass of `float`
and serializes as a JSON number); `ndarray` is a numpy array, which
`json.dump` rejects with a `TypeError`. -/
inductive PyShape where
  | float : PyShape
  | int : PyShape
  | str : PyShape
  | list : List PyShape → PyShape
  | ndarray : PyShape → PyShape
  | dict : List (String × PyShape) → PyShape

mutual

/-- Whether `json.dump` accepts a value of this shape without transformation. -/
def jsonSerializable : PyShape → Bool
  | .float => true
  | .int => true
  | .str => true
  | .ndarray _ => false
  | .list es => jsonSerializableList es
  | .dict kvs => jsonSerializableKVs kvs

def jsonSerializableList : List PyShape → Bool
  | [] => true
  | e :: es => jsonSerializable e && jsonSerializableList es

def jsonSerializableKVs : List (String × PyShape) → Bool
  | [] => true
  | kv :: kvs => jsonSerializable kv.2 && jsonSerializableKVs kvs

end

/-- The shape of the Python value `calculate_basic_stats` returns
(run.py:53-65).  `np.mean`, `np.median` and `np.std` return numpy scalar
floats; `sum(orders)` is a Python int; `np.percentile(prices, [25, 50, 75])`,
called with a list of percentiles, returns a numpy ndarray of floats, stored
unconverted under the key "quartiles". -/
def basic_stats_pyshape : PyShape :=
  .dict
    [("price_stats",
       .dict [("mean", .float), ("median", .float), ("std", .float),
              ("quartiles", .ndarray .float)]),
     ("order_stats",
       .dict [("mean", .float), ("median", .float), ("total", .int)])]

/-! ## Concrete inputs used by counterexamples and witnesses -/

/-- A record whose price text is malformed: `float("abc")` raises. -/
def gigBadPrice : Gig :=
  { price := "$abc", orders := "10", level := "L", rating := "4.8" }

/-- A record whose order text is the documented `K`-suffix edge case:
`"1.5K"` becomes `"1.5000"`, which `int()` rejects. -/
def gigBadOrders : Gig :=
  { price := "$10", orders := "1.5K", level := "L", rating := "4.8" }

/-- A single record with zero orders: `sum(orders) = 0` on non-empty input. -/
def gigZeroOrders : Gig :=
  { price := "$10", orders := "0", level := "L", rating := "5" }

/-- Twelve records with orders 5,5,1,...,1: total 20, so the squared shares sum
to exactly (25 + 25 + 10 * 1) * 25 = 1500. -/
def gigs1500 : List Gig :=
  [⟨"$1", "5", "L", "5"⟩, ⟨"$1", "5", "L", "5"⟩, ⟨"$1", "1", "L", "5"⟩,
   ⟨"$1", "1", "L", "5"⟩, ⟨"$1", "1", "L", "5"⟩, ⟨"$1", "1", "L", "5"⟩,
   ⟨"$1", "1", "L", "5"⟩, ⟨"$1", "1", "L", "5"⟩, ⟨"$1", "1", "L", "5"⟩,
   ⟨"$1", "1", "L", "5"⟩, ⟨"$1", "1", "L", "5"⟩, ⟨"$1", "1", "L", "5"⟩]

/-- Four records with one order each: four shares of 25, HHI exactly 2500. -/
def gigs2500 : List Gig :=
  [⟨"$1", "1", "L", "5"⟩, ⟨"$1", "1", "L", "5"⟩,
   ⟨"$1", "1", "L", "5"⟩, ⟨"$1", "1", "L", "5"⟩]

/-- The market-dynamics value of `gigs2500`. -/
def md2500 : MarketDynamics :=
  { level_distribution := [("L", 100)], hhi := 2500, concentration_level := "Moderate" }

def gigA : Gig := ⟨"$10", "3", "L", "4.8"⟩

def gigB : Gig := ⟨"$20", "1", "L", "4.0"⟩

/-- The market-dynamics value of `[gigA, gigB]`: shares 75 and 25, HHI 6250. -/
def mdAB : MarketDynamics :=
  { level_distribution := [("L", 100)], hhi := 6250, concentration_level := "High" }

/-- One well-formed record. -/
def gigC10 : Gig := ⟨"$10", "5", "Level 1", "4.8"⟩

/-! ## Sanity checks of the embedding on concrete fields -/

example : parsePrice "$49.99" = some (4999 / 100 : Rat) := by decide
example : parseOrders "2K+" = some 2000 := by decide
example : parseOrders "1.5K" = none := by decide
example : parsePrice "$abc" = none := by decide
example : parseRating "4.8" = some (24 / 5 : Rat) := by decide
example : np_percentile [1, 2, 3] 33 = 166 / 100 := by decide
example : np_median [1, 2, 3, 4] = 5 / 2 := by decide

/-! ## Helper lemmas about the embedding -/

@[simp]
theorem mapOpt_nil {α β : Type} (f : α → Option β) : mapOpt f [] = some [] := rfl

@[simp]
theorem mapOpt_cons {α β : Type} (f : α → Option β) (a : α) (as : List α) :
    mapOpt f (a :: as) = (f a).bind fun b => (mapOpt f as).map fun bs => b :: bs := rfl

theorem mapOpt_eq_none_of_mem {α β : Type} (f : α → Option β) :
    ∀ {l : List α} {x : α}, x ∈ l → f x = none → mapOpt f l = none := by
  intro l
  induction l with
  | nil => intro x hx; exact absurd hx (List.not_mem_nil x)
  | cons a as ih =>
    intro x hx hfx
    rcases List.mem_cons.mp hx with rfl | hmem
    · simp [hfx]
    · cases hfa : f a with
      | none => simp [hfa]
      | some b => simp [hfa, ih hmem hfx]

theorem mapOpt_perm_some {α β : Type} (f : α → Option β) {l l2 : List α} (hp : l.Perm l2) :
    ∀ {os : List β}, mapOpt f l = some os → ∃ os2, mapOpt f l2 = some os2 ∧ os.Perm os2 := by
  induction hp with
  | nil => intro os h; exact ⟨os, h, List.Perm.refl _⟩
  | cons a hp ih =>
    rename_i l1 l2
    intro os h
    rw [mapOpt_cons] at h
    cases hfa : f a with
    | none => rw [hfa] at h; simp at h
    | some b =>
      rw [hfa] at h
      cases hrest : mapOpt f l1 with
      | none => rw [hrest] at h; simp at h
      | some bs =>
        rw [hrest] at h
        simp at h
        obtain ⟨bs2, h2, hperm⟩ := ih hrest
        exact ⟨b :: bs2, by simp [hfa, h2], by rw [← h]; exact hperm.cons b⟩
  | swap a b l =>
    intro os h
    rw [mapOpt_cons, mapOpt_cons] at h
    cases hfb : f b with
    | none => rw [hfb] at h; simp at h
    | some vb =>
      rw [hfb] at h
      cases hfa : f a with
      | none => rw [hfa] at h; simp at h
      | some va =>
        rw [hfa] at h
        cases hrest : mapOpt f l with
        | none => rw [hrest] at h; simp at h
        | some vs =>
          rw [hrest] at h
          simp at h
          exact ⟨va :: vb :: vs, by simp [hfa, hfb, hrest],
            by rw [← h]; exact List.Perm.swap va vb vs⟩
  | trans hp1 hp2 ih1 ih2 =>
    intro os h
    obtain ⟨os2, h2, hp12⟩ := ih1 h
    obtain ⟨os3, h3, hp23⟩ := ih2 h2
    exact ⟨os3, h3, hp12.trans hp23⟩

theorem mapOpt_mem_some {α β : Type} (f : α → Option β) :
    ∀ {l : List α} {os : List β}, mapOpt f l = some os → ∀ b ∈ os, ∃ a ∈ l, f a = some b := by
  intro l
  induction l with
  | nil =>
    intro os h b hb
    rw [mapOpt_nil] at h
    cases h
    exact absurd hb (List.not_mem_nil b)
  | cons a as ih =>
    intro os h b hb
    rw [mapOpt_cons] at h
    cases hfa : f a with
    | none => rw [hfa] at h; simp at h
    | some va =>
      rw [hfa] at h
      cases hrest : mapOpt f as with
      | none => rw [hrest] at h; simp at h
      | some vs =>
        rw [hrest] at h
        simp at h
        rw [← h] at hb
        rcases List.mem_cons.mp hb with rfl | hmem
        · exact ⟨a, List.mem_cons_self a as, hfa⟩
        · obtain ⟨a2, ha2, hfa2⟩ := ih hrest b hmem
          exact ⟨a2, List.mem_cons_of_mem a ha2, hfa2⟩

theorem countP_partition (lo hi : Rat) (hle : lo ≤ hi) (l : List Rat) :
    l.countP (fun p => decide (p < lo)) +
      l.countP (fun p => decide (lo ≤ p) && decide (p < hi)) +
      l.countP (fun p => decide (hi ≤ p)) = l.length := by
  induction l with
  | nil => simp
  | cons a l ih =>
    simp only [List.countP_cons, List.length_cons]
    rcases lt_or_le a lo with h1 | h1
    · simp [h1, not_le.mpr h1, not_le.mpr (lt_of_lt_of_le h1 hle)]
      omega
    · rcases lt_or_le a hi with h4 | h4
      · simp [not_lt.mpr h1, h1, h4, not_le.mpr h4]
        omega
      · simp [not_lt.mpr h1, h1, not_lt.mpr h4, h4]
        omega

theorem sorted_getD_mono {s : List Rat} (hs : s.Sorted (· ≤ ·)) {a b : Nat}
    (hab : a ≤ b) (hb : b < s.length) : s.getD a 0 ≤ s.getD b 0 := by
  have ha : a < s.length := lt_of_le_of_lt hab hb
  rw [List.getD_eq_getElem s 0 ha, List.getD_eq_getElem s 0 hb]
  exact hs.rel_get_of_le (by exact_mod_cast hab : (⟨a, ha⟩ : Fin s.length) ≤ ⟨b, hb⟩)

theorem floor_toNat_cast_le {t : Rat} (h0 : 0 ≤ t) : (((⌊t⌋).toNat : Rat)) ≤ t := by
  have hnn : 0 ≤ ⌊t⌋ := Int.floor_nonneg.mpr h0
  have he : ((⌊t⌋).toNat : Int) = ⌊t⌋ := Int.toNat_of_nonneg hnn
  have h1 : ((⌊t⌋ : Int) : Rat) ≤ t := Int.floor_le t
  rw [show (((⌊t⌋).toNat : Rat)) = ((((⌊t⌋).toNat : Int)) : Rat) by push_cast; ring, he]
  exact h1

theorem lt_floor_toNat_add_one {t : Rat} (h0 : 0 ≤ t) : t < ((⌊t⌋).toNat : Rat) + 1 := by
  have hnn : 0 ≤ ⌊t⌋ := Int.floor_nonneg.mpr h0
  have he : ((⌊t⌋).toNat : Int) = ⌊t⌋ := Int.toNat_of_nonneg hnn
  rw [show (((⌊t⌋).toNat : Rat)) + 1 = ((((⌊t⌋).toNat : Int)) : Rat) + 1 by push_cast; ring, he]
  exact Int.lt_floor_add_one t

theorem floor_toNat_mono {t1 t2 : Rat} (h : t1 ≤ t2) : (⌊t1⌋).toNat ≤ (⌊t2⌋).toNat :=
  Int.toNat_le_toNat (Int.floor_le_floor h)

theorem floor_toNat_le_of_le_cast {t : Rat} {m : Nat} (h : t ≤ (m : Rat)) :
    (⌊t⌋).toNat ≤ m := by
  have h1 : ⌊t⌋ ≤ (m : Int) := by
    have := Int.floor_le_floor h
    simpa using this
  omega

theorem linInterp_mono {s : List Rat} (hs : s.Sorted (· ≤ ·)) (hn : 1 ≤ s.length)
    {t1 t2 : Rat} (h0 : 0 ≤ t1) (h12 : t1 ≤ t2) (h2 : t2 ≤ (s.length : Rat) - 1) :
    linInterp s t1 ≤ linInterp s t2 := by
  have h02 : 0 ≤ t2 := le_trans h0 h12
  set n := s.length with hn_def
  set i1 := (⌊t1⌋).toNat with hi1_def
  set i2 := (⌊t2⌋).toNat with hi2_def
  have hc1 : (i1 : Rat) ≤ t1 := floor_toNat_cast_le h0
  have hc2 : (i2 : Rat) ≤ t2 := floor_toNat_cast_le h02
  have hl1 : t1 < (i1 : Rat) + 1 := lt_floor_toNat_add_one h0
  have hi2top : i2 ≤ n - 1 := by
    have : t2 ≤ ((n - 1 : Nat) : Rat) := by
      rw [Nat.cast_sub hn]
      simpa using h2
    exact floor_toNat_le_of_le_cast this
  have hi12 : i1 ≤ i2 := floor_toNat_mono h12
  have hi1top : i1 ≤ n - 1 := le_trans hi12 hi2top
  have hn1lt : n - 1 < n := by omega
  have hlo1hi1 : s.getD i1 0 ≤ s.getD (min (i1 + 1) (n - 1)) 0 :=
    sorted_getD_mono hs (by omega) (by omega)
  have hlo2hi2 : s.getD i2 0 ≤ s.getD (min (i2 + 1) (n - 1)) 0 :=
    sorted_getD_mono hs (by omega) (by omega)
  rcases eq_or_lt_of_le hi12 with heq | hlt
  · -- same interpolation segment
    unfold linInterp
    rw [← hi1_def, ← hi2_def, ← hn_def, ← heq]
    have hmul := mul_le_mul_of_nonneg_right (sub_le_sub_right h12 (i1 : Rat))
      (sub_nonneg.mpr hlo1hi1)
    linarith
  · -- t1 lies in an earlier segment than t2
    have s1 : linInterp s t1 ≤ s.getD (min (i1 + 1) (n - 1)) 0 := by
      unfold linInterp
      rw [← hi1_def, ← hn_def]
      have hf1 : t1 - (i1 : Rat) ≤ 1 := by linarith
      have := mul_le_mul_of_nonneg_right hf1 (sub_nonneg.mpr hlo1hi1)
      linarith
    have s2 : s.getD (min (i1 + 1) (n - 1)) 0 ≤ s.getD i2 0 :=
      sorted_getD_mono hs (by omega) (by omega)
    have s3 : s.getD i2 0 ≤ linInterp s t2 := by
      unfold linInterp
      rw [← hi2_def, ← hn_def]
      have hf2 : 0 ≤ t2 - (i2 : Rat) := by linarith
      have := mul_nonneg hf2 (sub_nonneg.mpr hlo2hi2)
      linarith
    linarith

theorem pySorted_sorted (xs : List Rat) : (pySorted xs).Sorted (· ≤ ·) :=
  List.sorted_insertionSort (· ≤ ·) xs

theorem pySorted_length (xs : List Rat) : (pySorted xs).length = xs.length :=
  (List.perm_insertionSort (· ≤ ·) xs).length_eq

theorem percentile33_le_66 (xs : List Rat) (hne : xs ≠ []) :
    np_percentile xs 33 ≤ np_percentile xs 66 := by
  unfold np_percentile
  have hs := pySorted_sorted xs
  have hn : 1 ≤ (pySorted xs).length := by
    rw [pySorted_length]
    exact List.length_pos.mpr hne
  have hcast : (1 : Rat) ≤ ((pySorted xs).length : Rat) := by exact_mod_cast hn
  apply linInterp_mono hs hn
  · have : (0 : Rat) ≤ ((pySorted xs).length : Rat) - 1 := by linarith
    positivity
  · rw [div_le_div_iff₀ (by norm_num) (by norm_num)]
    nlinarith
  · rw [div_le_iff₀ (by norm_num : (0 : Rat) < 100)]
    nlinarith

theorem sum_sq_le_sq_sum (xs : List Rat) (hnn : ∀ x ∈ xs, 0 ≤ x) :
    (xs.map fun x => x * x).sum ≤ xs.sum * xs.sum := by
  induction xs with
  | nil => simp
  | cons a l ih =>
    have ha : 0 ≤ a := hnn a (List.mem_cons_self a l)
    have hl : ∀ x ∈ l, 0 ≤ x := fun x hx => hnn x (List.mem_cons_of_mem a hx)
    have hs : 0 ≤ l.sum := List.sum_nonneg hl
    have := ih hl
    simp only [List.map_cons, List.sum_cons]
    nlinarith

theorem shares_sum (os : List Int) (T : Rat) :
    (os.map fun o : Int => ((o : Rat) / T) * 100).sum = (((os.sum : Int) : Rat) / T) * 100 := by
  induction os with
  | nil => simp
  | cons a l ih =>
    simp only [List.map_cons, List.sum_cons, ih]
    push_cast
    ring

theorem hhi_calc_perm {os os2 : List Int} (h : os.Perm os2) : hhi_calc os = hhi_calc os2 := by
  unfold hhi_calc
  rw [h.sum_eq]
  exact ((h.map fun o : Int => ((o : Rat) / ((os2.sum : Int) : Rat)) * 100).map fun s : Rat => s * s).sum_eq

theorem hhi_calc_nonneg (os : List Int) : 0 ≤ hhi_calc os := by
  apply List.sum_nonneg
  intro x hx
  obtain ⟨s, _, rfl⟩ := List.mem_map.mp hx
  exact mul_self_nonneg s

theorem hhi_calc_le_10000 (os : List Int) (hnn : ∀ o ∈ os, (0 : Int) ≤ o)
    (hT : os.sum ≠ 0) : hhi_calc os ≤ 10000 := by
  have hTpos : (0 : Int) < os.sum :=
    lt_of_le_of_ne (List.sum_nonneg hnn) (Ne.symm hT)
  have hTposQ : (0 : Rat) < ((os.sum : Int) : Rat) := by exact_mod_cast hTpos
  set T : Rat := ((os.sum : Int) : Rat) with hT_def
  have hsh : ∀ s ∈ os.map fun o : Int => ((o : Rat) / T) * 100, 0 ≤ s := by
    intro s hs
    obtain ⟨o, ho, rfl⟩ := List.mem_map.mp hs
    have : (0 : Rat) ≤ (o : Rat) := by exact_mod_cast hnn o ho
    positivity
  have hsum : (os.map fun o : Int => ((o : Rat) / T) * 100).sum = 100 := by
    rw [shares_sum, ← hT_def, div_self (ne_of_gt hTposQ)]
    norm_num
  have := sum_sq_le_sq_sum (os.map fun o : Int => ((o : Rat) / T) * 100) hsh
  rw [hsum] at this
  unfold hhi_calc
  rw [← hT_def]
  linarith

theorem sum_map_div_mul (L : List String) (f : String → Rat) (n c : Rat) :
    (L.map fun l => f l / n * c).sum = (L.map f).sum / n * c := by
  induction L with
  | nil => simp
  | cons a l ih =>
    simp only [List.map_cons, List.sum_cons, ih]
    ring

/-! ## The claims -/

/-- C1, counterexample: the claim says malformed numeric text never raises past
the module boundary and the record still contributes; in the source
`float(gig['price'].replace('$', ''))` raises `ValueError` on the price "$abc"
and `calculate_basic_stats` produces nothing at all. -/
theorem basic_stats_malformed_price_counterexample :
    parsePrice gigBadPrice.price = none ∧ calculate_basic_stats [gigBadPrice] = none :=
  ⟨by decide, by decide⟩

/-- C1 (amended): field normalization of the numeric kinds raises on malformed
text and the failure propagates out of the whole computation: if any record of
the input has an unparsable price or order field, `calculate_basic_stats`
raises (returns `none`) instead of substituting a default. -/
theorem basic_stats_parse_failure_propagates (gigs : List Gig) (g : Gig)
    (hg : g ∈ gigs) :
    (parsePrice g.price = none → calculate_basic_stats gigs = none) ∧
    (parseOrders g.orders = none → calculate_basic_stats gigs = none) := by
  constructor
  · intro hp
    unfold calculate_basic_stats
    rw [mapOpt_eq_none_of_mem _ hg hp]
    rfl
  · intro ho
    unfold calculate_basic_stats
    cases hpr : mapOpt (fun g => parsePrice g.price) gigs with
    | none => rfl
    | some ps =>
      rw [mapOpt_eq_none_of_mem _ hg ho]
      rfl

/-- C1, witness: at the record with order text "1.5K" the computation fails. -/
theorem basic_stats_parse_failure_propagates_witness :
    calculate_basic_stats [gigBadOrders] = none :=
  (basic_stats_parse_failure_propagates [gigBadOrders] gigBadOrders
    (List.mem_singleton.mpr rfl)).2 (by decide)

/-- C2: with zero input records the competition and demand scorer (modelled
from the spec, §4.5) reports level "Unknown" in both groups with the numeric
fields zeroed, and, being a total function, does not raise. -/
theorem competition_demand_scorer_empty :
    competition_demand_scorer [] =
      { competition_level := "Unknown", saturation := 0,
        demand_level := "Unknown", demand_score := 0 } := rfl

/-- C3: on a non-empty input whose order counts sum to zero the market-dynamics
computation does not return HHI 0 with level "Low": the share computation
divides by `sum(orders) = 0` and the call raises `ZeroDivisionError`. -/
theorem analyze_market_dynamics_zero_orders_raises :
    analyze_market_dynamics [gigZeroOrders] = none := by decide

/-- C9: the value `calculate_basic_stats` returns is not a tree of primitives:
its "quartiles" leaf is a numpy ndarray, so `json.dump` in `save_report`
rejects the report with a `TypeError`. -/
theorem basic_stats_report_not_json_serializable :
    jsonSerializable basic_stats_pyshape = false := rfl

/-- C10: for a fixed record list, `calculate_basic_stats`,
`analyze_market_dynamics` and `analyze_pricing` do not depend on the
pseudo-random source, so two evaluations agree; `analyze_competitors` draws
fresh response times, and with draws 2 and 4 (both legal values of
`random.uniform(1, 24)`) the `response_metrics` group differs between two
evaluations on the same single-record input. -/
theorem metrics_determinism_and_randomness :
    (∀ (rand rand2 : Nat → Rat) (gigs : List Gig),
      (metrics_core rand gigs).basic_stats = (metrics_core rand2 gigs).basic_stats ∧
      (metrics_core rand gigs).market_dynamics = (metrics_core rand2 gigs).market_dynamics ∧
      (metrics_core rand gigs).price_analysis = (metrics_core rand2 gigs).price_analysis) ∧
    (metrics_core (fun _ => 2) [gigC10]).competitor_analysis.map CompetitorAnalysis.response_metrics ≠
      (metrics_core (fun _ => 4) [gigC10]).competitor_analysis.map CompetitorAnalysis.response_metrics :=
  ⟨fun _ _ _ => ⟨rfl, rfl, rfl⟩, by decide⟩

/-- C5: for every non-empty price list the three price segments partition the
input: budget + mid_range + premium = the number of prices.  The budget band
is `p < p33`, mid-range is `p33 ≤ p < p66`, premium is `p ≥ p66`, and the 33rd
percentile never exceeds the 66th. -/
theorem price_segments_partition (prices : List Rat) (h : prices ≠ []) :
    (price_segments_calc prices).budget + (price_segments_calc prices).mid_range +
      (price_segments_calc prices).premium = prices.length := by
  have hle := percentile33_le_66 prices h
  unfold price_segments_calc
  exact countP_partition _ _ hle prices

/-- C5, witness: the partition property at the concrete price list [1, 2, 3]. -/
theorem price_segments_partition_witness :
    (price_segments_calc [1, 2, 3]).budget + (price_segments_calc [1, 2, 3]).mid_range +
      (price_segments_calc [1, 2, 3]).premium = ([(1 : Rat), 2, 3]).length :=
  price_segments_partition [1, 2, 3] (by decide)

/-- C7: for every non-empty input list the seller-tier distribution values sum
to exactly 100 (the model computes in exact rationals, so no rounding
tolerance is needed). -/
theorem level_distribution_values_sum (gigs : List Gig) (h : gigs ≠ []) :
    ((level_distribution_calc gigs).map fun p => p.2).sum = 100 := by
  unfold level_distribution_calc
  rw [List.map_map]
  have hcomp :
      ((fun p : String × Rat => p.2) ∘ fun l =>
        (l, ((gigs.map fun g => g.level).count l : Rat) / (gigs.length : Rat) * 100)) =
      fun l => (((gigs.map fun g => g.level).count l : Rat)) / (gigs.length : Rat) * 100 := rfl
  rw [hcomp]
  rw [sum_map_div_mul _ (fun l => (((gigs.map fun g => g.level).count l : Rat)))]
  have hcounts :
      ((gigs.map fun g => g.level).dedup.map fun l =>
        (((gigs.map fun g => g.level).count l : Rat))).sum = ((gigs.length : Nat) : Rat) := by
    have h0 := List.sum_map_count_dedup_eq_length (gigs.map fun g => g.level)
    have h1 := congrArg (fun k : Nat => (k : Rat)) h0
    simp only at h1
    rw [Nat.cast_list_sum, List.map_map] at h1
    rw [List.length_map] at h1
    exact h1
  rw [hcounts]
  have hn : ((gigs.length : Rat)) ≠ 0 := by
    have hz : gigs.length ≠ 0 := fun hz => h (List.length_eq_zero.mp hz)
    exact_mod_cast hz
  rw [div_self hn]
  norm_num

/-- C7, witness: the tier distribution of a concrete two-record input sums
to 100. -/
theorem level_distribution_values_sum_witness :
    ((level_distribution_calc [gigA, gigC10]).map fun p => p.2).sum = 100 :=
  level_distribution_values_sum [gigA, gigC10] (by decide)

/-- C8: the opportunity score (modelled from the spec, §4.6) equals
`(100 - saturation) * demandScore / 100`, lies in [0, 100] when both inputs
do, is non-decreasing in the demand score and non-increasing in the
saturation. -/
theorem opportunity_score_spec (s d s2 d2 : Rat)
    (hs0 : 0 ≤ s) (hs1 : s ≤ 100) (hd0 : 0 ≤ d) (hd1 : d ≤ 100) :
    opportunity_score s d = (100 - s) * d / 100 ∧
    (0 ≤ opportunity_score s d ∧ opportunity_score s d ≤ 100) ∧
    (d ≤ d2 → opportunity_score s d ≤ opportunity_score s d2) ∧
    (s ≤ s2 → opportunity_score s2 d ≤ opportunity_score s d) := by
  unfold opportunity_score
  refine ⟨rfl, ⟨?_, ?_⟩, ?_, ?_⟩
  · have h1 : 0 ≤ 100 - s := by linarith
    positivity
  · rw [div_le_iff₀ (by norm_num : (0 : Rat) < 100)]
    nlinarith
  · intro h
    have h1 : (0 : Rat) ≤ 100 - s := by linarith
    gcongr
  · intro h
    have h2 : 100 - s2 ≤ 100 - s := by linarith
    gcongr

/-- C8, witness: the conjunction instantiated at saturation 50 and demand 80,
compared against saturation 60 and demand 90. -/
theorem opportunity_score_spec_witness :
    opportunity_score 50 80 = (100 - 50) * 80 / 100 ∧
    (0 ≤ opportunity_score 50 80 ∧ opportunity_score 50 80 ≤ 100) ∧
    (opportunity_score 50 80 ≤ opportunity_score 50 90) ∧
    (opportunity_score 60 80 ≤ opportunity_score 50 80) := by
  have h := opportunity_score_spec 50 80 60 90 (by decide) (by decide) (by decide) (by decide)
  exact ⟨h.1, h.2.1, h.2.2.1 (by decide), h.2.2.2 (by decide)⟩

/-- The do-block of `analyze_market_dynamics`, written out. -/
theorem analyze_market_dynamics_eq (gigs : List Gig) :
    analyze_market_dynamics gigs =
      (mapOpt (fun g => parseOrders g.orders) gigs).bind fun orders =>
        if gigs.length ≠ 0 ∧ orders.sum = 0 then none
        else some
          { level_distribution := level_distribution_calc gigs
            hhi := hhi_calc orders
            concentration_level :=
              if hhi_calc orders > 2500 then "High"
              else if hhi_calc orders > 1500 then "Moderate" else "Low" } := rfl

/-- C4, counterexample: the concrete input `gigs1500` has HHI exactly 1500 and
the source labels it "Low", not "Moderate" (the 1500 bound is strict in
`hhi > 1500`). -/
theorem concentration_level_at_1500_counterexample :
    (analyze_market_dynamics gigs1500).map (fun m => (m.hhi, m.concentration_level)) =
      some (1500, "Low") := by decide

/-- C4 (amended): at the boundaries the labels follow the source's strict
comparisons: an input with HHI exactly 1500 is labeled "Low" and an input with
HHI exactly 2500 is labeled "Moderate". -/
theorem concentration_level_thresholds (gigs : List Gig) (m : MarketDynamics)
    (h : analyze_market_dynamics gigs = some m) :
    (m.hhi = 1500 → m.concentration_level = "Low") ∧
    (m.hhi = 2500 → m.concentration_level = "Moderate") := by
  rw [analyze_market_dynamics_eq] at h
  cases horders : mapOpt (fun g => parseOrders g.orders) gigs with
  | none => rw [horders] at h; cases h
  | some os =>
    rw [horders] at h
    simp only [Option.some_bind] at h
    by_cases hc : gigs.length ≠ 0 ∧ os.sum = 0
    · rw [if_pos hc] at h; cases h
    · rw [if_neg hc] at h
      cases Option.some.inj h
      constructor
      · intro hh
        have hh2 : hhi_calc os = 1500 := hh
        show (if hhi_calc os > 2500 then "High"
          else if hhi_calc os > 1500 then "Moderate" else "Low") = "Low"
        rw [if_neg (by rw [hh2]; norm_num), if_neg (by rw [hh2]; norm_num)]
      · intro hh
        have hh2 : hhi_calc os = 2500 := hh
        show (if hhi_calc os > 2500 then "High"
          else if hhi_calc os > 1500 then "Moderate" else "Low") = "Moderate"
        rw [if_neg (by rw [hh2]; norm_num), if_pos (by rw [hh2]; norm_num)]

/-- C4, witness: the four-record input `gigs2500` evaluates to HHI 2500 and is
labeled "Moderate". -/
theorem concentration_level_thresholds_witness : md2500.concentration_level = "Moderate" :=
  (concentration_level_thresholds gigs2500 md2500 (by decide)).2 (by decide)

/-- C6: the HHI of `analyze_market_dynamics` is invariant under any permutation
of the input records (as a possibly-raising computation: both orderings raise
together, and when both return the indices agree), and whenever the
computation returns and every parsed order count is non-negative the HHI lies
in [0, 10000]. -/
theorem hhi_perm_invariant_and_bounded (gigs gigs2 : List Gig) (hp : gigs.Perm gigs2) :
    ((analyze_market_dynamics gigs).map MarketDynamics.hhi =
      (analyze_market_dynamics gigs2).map MarketDynamics.hhi) ∧
    (∀ m, analyze_market_dynamics gigs = some m →
      (∀ g ∈ gigs, 0 ≤ (parseOrders g.orders).getD 0) →
      0 ≤ m.hhi ∧ m.hhi ≤ 10000) := by
  constructor
  · rw [analyze_market_dynamics_eq, analyze_market_dynamics_eq]
    cases horders : mapOpt (fun g => parseOrders g.orders) gigs with
    | none =>
      have h2 : mapOpt (fun g => parseOrders g.orders) gigs2 = none := by
        cases h3 : mapOpt (fun g => parseOrders g.orders) gigs2 with
        | none => rfl
        | some os2 =>
          obtain ⟨os, hos, _⟩ := mapOpt_perm_some _ hp.symm h3
          rw [horders] at hos
          cases hos
      rw [h2]
      rfl
    | some os =>
      obtain ⟨os2, hos2, hperm⟩ := mapOpt_perm_some _ hp horders
      rw [hos2]
      simp only [Option.some_bind]
      have hsum : os.sum = os2.sum := hperm.sum_eq
      have hlen : gigs.length = gigs2.length := hp.length_eq
      have hhh : hhi_calc os = hhi_calc os2 := hhi_calc_perm hperm
      by_cases hc : gigs.length ≠ 0 ∧ os.sum = 0
      · have hc2 : gigs2.length ≠ 0 ∧ os2.sum = 0 := by rw [← hlen, ← hsum]; exact hc
        rw [if_pos hc, if_pos hc2]
      · have hc2 : ¬(gigs2.length ≠ 0 ∧ os2.sum = 0) := by rw [← hlen, ← hsum]; exact hc
        rw [if_neg hc, if_neg hc2]
        simp [hhh]
  · intro m hm hnn
    rw [analyze_market_dynamics_eq] at hm
    cases horders : mapOpt (fun g => parseOrders g.orders) gigs with
    | none => rw [horders] at hm; cases hm
    | some os =>
      rw [horders] at hm
      simp only [Option.some_bind] at hm
      by_cases hc : gigs.length ≠ 0 ∧ os.sum = 0
      · rw [if_pos hc] at hm; cases hm
      · rw [if_neg hc] at hm
        cases Option.some.inj hm
        refine ⟨hhi_calc_nonneg os, ?_⟩
        have hnn2 : ∀ o ∈ os, (0 : Int) ≤ o := by
          intro o ho
          obtain ⟨g, hg, hfg⟩ := mapOpt_mem_some _ horders o ho
          have h4 := hnn g hg
          rw [hfg] at h4
          simpa using h4
        push_neg at hc
        by_cases hz : gigs.length = 0
        · have hgigs : gigs = [] := List.length_eq_zero.mp hz
          subst hgigs
          have hos : os = [] := by
            rw [mapOpt_nil] at horders
            exact (Option.some.inj horders).symm
          subst hos
          show hhi_calc [] ≤ 10000
          norm_num [hhi_calc]
        · exact hhi_calc_le_10000 os hnn2 (hc hz)

/-- C6, witness: swapping the two records of a concrete input leaves the HHI
equal, and the value 6250 of that input lies in [0, 10000]. -/
theorem hhi_perm_invariant_and_bounded_witness :
    ((analyze_market_dynamics [gigA, gigB]).map MarketDynamics.hhi =
      (analyze_market_dynamics [gigB, gigA]).map MarketDynamics.hhi) ∧
    (0 ≤ mdAB.hhi ∧ mdAB.hhi ≤ 10000) := by
  have h := hhi_perm_invariant_and_bounded [gigA, gigB] [gigB, gigA] (by decide)
  exact ⟨h.1, h.2 mdAB (by decide) (by decide)⟩
